import Mathlib

/-!
# Verification of the content ordering/aggregation layer of kosrat.dev

Shallow embedding of the site's content utilities:

* visibility filtering (`isDebugMode`, `shouldIncludeDraft`, `shouldIncludeEntry`,
  the inline draft predicate of `getRawSortedPosts`) — `src/utils/type-guards.ts`,
  `src/utils/content-utils.ts`;
* the comparator functions of `src/utils/optimized-sorting.ts`
  (`coursesByDate`, `sectionsByOrder`, `lessonsByOrder`, `lessonsBySectionAndOrder`,
  `postsByDate`);
* the sorting layer `sortWithCache` / `mergeSort` / `merge` and the
  `sortingUtils` wrappers of `src/utils/optimized-sorting.ts`;
* the cached aggregation layer (`getAllCourseLessons`, `clearContentCache`,
  `isCacheValid`, `CACHE_TTL`) of the cached `course-utils` module;
* the post aggregation functions (`getRawSortedPosts`, `getSortedPosts`) of
  `src/utils/content-utils.ts` and `getSortedPostsWithPinnedCourse` of
  `src/utils/content/archive-utils.ts`.

Dates are modelled by their millisecond timestamps (`Int`, the value of
`Date.prototype.getTime`).  The ECMAScript built-in `Array.prototype.sort`
(guaranteed stable and, for consistent comparators, sorted) is modelled by a
stable insertion sort `nativeSort`.  `String.prototype.localeCompare` is
modelled by lexicographic string comparison.
-/

/-! ## Data model -/

/-- Front-matter data of an entry of the `courses` collection
(union of the course / section / lesson shapes; absent fields are `Option`).
`published` is the millisecond timestamp of the `published` date. -/
structure CourseData where
  type : String
  title : String
  published : Int
  updated : Option Int := none
  order : Int := 0
  draft : Option Bool := none
  level : Option String := none
  description : Option String := none
  category : Option String := none
  image : Option String := none
  deriving DecidableEq

/-- An entry of the `courses` collection: `id` is the content path
(`course/section/lesson`), `slug` the derived slug. -/
structure CourseEntry where
  id : String
  slug : String
  data : CourseData
  deriving DecidableEq

/-- Front-matter data of a blog post (`posts` collection), including the
navigation fields `nextSlug`/`nextTitle`/`prevSlug`/`prevTitle` that
`getSortedPosts` assigns in place (undefined before assignment). -/
structure PostData where
  title : String
  published : Int
  updated : Option Int := none
  tags : List String := []
  category : Option String := none
  description : Option String := none
  image : Option String := none
  draft : Option Bool := none
  nextSlug : Option String := none
  nextTitle : Option String := none
  prevSlug : Option String := none
  prevTitle : Option String := none
  deriving DecidableEq

/-- An entry of the `posts` collection. -/
structure PostEntry where
  slug : String
  data : PostData
  deriving DecidableEq

/-! ## Visibility filter (`src/utils/type-guards.ts`) -/

/-- `isDebugMode` of `type-guards.ts`, server side: returns `true` when the
`VITE_DEBUG` environment variable is the string `"true"`, otherwise the
negation of the production flag (`!import.meta.env.PROD`). -/
def isDebugMode (viteDebug : String) (prod : Bool) : Bool :=
  if viteDebug = "true" then true else !prod

/-- `shouldIncludeDraft` of `type-guards.ts`: include when the schema has no
`draft` field, or the entry is not a draft; a draft is included only in debug
mode. -/
def shouldIncludeDraft (hasDraft isDraft : Bool) (viteDebug : String) (prod : Bool) : Bool :=
  if !hasDraft then true
  else if !isDraft then true
  else isDebugMode viteDebug prod

/-- `shouldIncludeEntry` of `type-guards.ts`, as a function of the entry's
`draft` field (`none` models an absent key). -/
def shouldIncludeEntry (draft : Option Bool) (viteDebug : String) (prod : Bool) : Bool :=
  shouldIncludeDraft draft.isSome (draft == some true) viteDebug prod

/-- The inline draft predicate of `getRawSortedPosts`
(`content-utils.ts`): `import.meta.env.PROD ? data.draft !== true : true`. -/
def postsFilter (prod : Bool) (p : PostEntry) : Bool :=
  if prod then !(p.data.draft == some true) else true

/-! ## Comparators (`src/utils/optimized-sorting.ts`) -/

/-- Model of `String.prototype.localeCompare` as lexicographic string
comparison returning `-1`/`0`/`1`. -/
def localeCompareInt (a b : String) : Int :=
  if a < b then -1 else if a = b then 0 else 1

/-- `sortingFunctions.coursesByDate`: newest first via timestamp difference,
guarded by `isCourse` on both arguments (`0` for mismatched kinds). -/
def coursesByDate (a b : CourseEntry) : Int :=
  if a.data.type = "course" ∧ b.data.type = "course" then
    b.data.published - a.data.published
  else 0

/-- `sortingFunctions.sectionsByOrder`: ascending `order`, guarded by
`isSection` on both arguments. -/
def sectionsByOrder (a b : CourseEntry) : Int :=
  if a.data.type = "section" ∧ b.data.type = "section" then
    a.data.order - b.data.order
  else 0

/-- `sortingFunctions.lessonsByOrder`: ascending `order`, guarded by
`isLesson` on both arguments. -/
def lessonsByOrder (a b : CourseEntry) : Int :=
  if a.data.type = "lesson" ∧ b.data.type = "lesson" then
    a.data.order - b.data.order
  else 0

/-- The section segment of a lesson id: `id.split("/")[1]`.
(JS would throw on an id with fewer than two segments; the model totalizes
with `""`, which is never hit for well-formed lesson ids.) -/
def sectionSeg (e : CourseEntry) : String :=
  ((e.id.splitOn "/").drop 1).headD ""

/-- `sortingFunctions.lessonsBySectionAndOrder`: compare the second id
segment with `localeCompare`, then ascending `order`; guarded by `isLesson`
on both arguments. -/
def lessonsBySectionAndOrder (a b : CourseEntry) : Int :=
  if a.data.type = "lesson" ∧ b.data.type = "lesson" then
    if sectionSeg a ≠ sectionSeg b then localeCompareInt (sectionSeg a) (sectionSeg b)
    else a.data.order - b.data.order
  else 0

/-- `sortingFunctions.postsByDate`: newest first via timestamp difference
(no kind guard — posts have no `type`). -/
def postsByDate (a b : PostEntry) : Int :=
  b.data.published - a.data.published

/-- The inline comparator of `getRawSortedPosts` and
`getCombinedArchiveContent`: `dateA > dateB ? -1 : 1`.  Note it returns `1`,
never `0`, on exact ties. -/
def rawDateCompare (a b : Int) : Int :=
  if a > b then -1 else 1

/-! ## Model of the ECMAScript built-in stable sort

`Array.prototype.sort` is required by ECMA-262 to be stable; for a
consistent comparator its output is the sorted stable permutation.  We model
it as a stable insertion sort: each element is inserted before the first
already-placed element `b` with `cmp a b ≤ 0`; elements appearing earlier in
the input are inserted later, hence land before equal-comparing elements
placed earlier — the stable behaviour. -/

/-- Stable insertion of `a` into `s`: `a` goes before the first `b` with
`cmp a b ≤ 0`. -/
def insertS (cmp : α → α → Int) (a : α) : List α → List α
  | [] => [a]
  | b :: s => if cmp a b ≤ 0 then a :: b :: s else b :: insertS cmp a s

/-- Model of the built-in stable comparison sort. -/
def nativeSort (cmp : α → α → Int) : List α → List α
  | [] => []
  | a :: l => insertS cmp a (nativeSort cmp l)

/-! ## The repository's merge sort (`mergeSort` / `merge` of
`src/utils/optimized-sorting.ts`) -/

/-- `merge` of `optimized-sorting.ts`: take from the left while
`compare(left, right) <= 0`, then append remainders. -/
def mergeR (cmp : α → α → Int) : List α → List α → List α
  | [], r => r
  | a :: l, [] => a :: l
  | a :: l, b :: r =>
    if cmp a b ≤ 0 then a :: mergeR cmp l (b :: r)
    else b :: mergeR cmp (a :: l) r
termination_by l r => l.length + r.length

/-- `mergeSort` of `optimized-sorting.ts`: split at `floor(n/2)`, recurse,
merge. -/
def mergeSortR (cmp : α → α → Int) (l : List α) : List α :=
  if h : l.length ≤ 1 then l
  else
    mergeR cmp (mergeSortR cmp (l.take (l.length / 2)))
      (mergeSortR cmp (l.drop (l.length / 2)))
termination_by l.length
decreasing_by
  · simp only [List.length_take]
    omega
  · simp only [List.length_drop]
    omega

/-! ## The caching sort layer (`sortWithCache`, `sortingUtils`) -/

/-- The module-level `sortCache` map of `optimized-sorting.ts`,
keyed by strings.  Modelled as an association list; `set` conses (the
most recent binding wins on lookup, matching `Map.set`/`Map.get`). -/
abbrev SortCache (α : Type) : Type := List (String × List α)

/-- `sortWithCache` of `optimized-sorting.ts`.  In production mode a present
cache key short-circuits to the cached value; otherwise the input is sorted —
built-in sort for ≤ 50 elements, the local merge sort above — and stored
under the key when one is given.  Returns the result together with the
updated cache. -/
def sortWithCache (σ : SortCache α) (nodeEnv : String) (items : List α)
    (cmp : α → α → Int) (cacheKey : Option String) : List α × SortCache α :=
  let isProduction := nodeEnv = "production"
  match cacheKey with
  | some k =>
    if isProduction ∧ (List.lookup k σ).isSome then ((List.lookup k σ).getD [], σ)
    else
      let sorted := if items.length ≤ 50 then nativeSort cmp items else mergeSortR cmp items
      (sorted, (k, sorted) :: σ)
  | none =>
    let sorted := if items.length ≤ 50 then nativeSort cmp items else mergeSortR cmp items
    (sorted, σ)

/-- `sortingUtils.sortCourses`: cache key `courses_<length>` when caching is
enabled. -/
def sortCourses (σ : SortCache CourseEntry) (nodeEnv : String)
    (courses : List CourseEntry) (useCache : Bool := true) :
    List CourseEntry × SortCache CourseEntry :=
  let cacheKey := if useCache then some ("courses_" ++ toString courses.length) else none
  sortWithCache σ nodeEnv courses coursesByDate cacheKey

/-- `sortingUtils.sortSections`: cache key `sections_<courseSlug>`. -/
def sortSections (σ : SortCache CourseEntry) (nodeEnv : String)
    (sections : List CourseEntry) (courseSlug : Option String) :
    List CourseEntry × SortCache CourseEntry :=
  sortWithCache σ nodeEnv sections sectionsByOrder (courseSlug.map (fun s => "sections_" ++ s))

/-- `sortingUtils.sortLessons`: cache key `lessons_<sectionSlug>`. -/
def sortLessons (σ : SortCache CourseEntry) (nodeEnv : String)
    (lessons : List CourseEntry) (sectionSlug : Option String) :
    List CourseEntry × SortCache CourseEntry :=
  sortWithCache σ nodeEnv lessons lessonsByOrder (sectionSlug.map (fun s => "lessons_" ++ s))

/-- `sortingUtils.sortAllCourseLessons`: cache key `all_lessons_<courseSlug>`. -/
def sortAllCourseLessons (σ : SortCache CourseEntry) (nodeEnv : String)
    (lessons : List CourseEntry) (courseSlug : Option String) :
    List CourseEntry × SortCache CourseEntry :=
  sortWithCache σ nodeEnv lessons lessonsBySectionAndOrder
    (courseSlug.map (fun s => "all_lessons_" ++ s))

/-! ## The content cache (cached `course-utils` module) -/

/-- `CACHE_TTL`: `0` when `NODE_ENV === "development"`, else
`Number.POSITIVE_INFINITY` (modelled by `none`). -/
def cacheTTL (nodeEnv : String) : Option Int :=
  if nodeEnv = "development" then some 0 else none

/-- `isCacheValid`: `Date.now() - contentCache.lastUpdated < CACHE_TTL`
(every finite value is below positive infinity). -/
def isCacheValid (nodeEnv : String) (now lastUpdated : Int) : Bool :=
  match cacheTTL nodeEnv with
  | some ttl => now - lastUpdated < ttl
  | none => true

/-- The `contentCache` record of the cached `course-utils` module. -/
structure ContentCache where
  courses : Option (List CourseEntry)
  courseLessons : List (String × List CourseEntry)
  courseSections : List (String × List CourseEntry)
  sectionLessons : List (String × List CourseEntry)
  lastUpdated : Int
  deriving DecidableEq

/-- The initial (module-load) content cache. -/
def ContentCache.initial : ContentCache :=
  { courses := none, courseLessons := [], courseSections := [],
    sectionLessons := [], lastUpdated := 0 }

/-- `clearContentCache`: reset every key-space and the freshness timestamp.
The sort cache of `optimized-sorting.ts` is untouched. -/
def clearContentCache (_c : ContentCache) : ContentCache :=
  { courses := none, courseLessons := [], courseSections := [],
    sectionLessons := [], lastUpdated := 0 }

/-- Build-mode and environment signals, read at call time. -/
structure Env where
  nodeEnv : String
  prod : Bool
  viteDebug : String
  deriving DecidableEq

/-- The store-adapter predicate of the cached `getAllCourseLessons`:
`data.type === "lesson" && id.startsWith(courseSlug) && shouldIncludeEntry`. -/
def allCourseLessonsPred (env : Env) (courseSlug : String) (e : CourseEntry) : Bool :=
  e.data.type = "lesson" && e.id.startsWith courseSlug
    && shouldIncludeEntry e.data.draft env.viteDebug env.prod

/-- `isValidCourseData` of `type-guards.ts` (non-empty strings are modelled
by `String.trim ≠ ""`; date validity holds for every timestamp). -/
def isValidCourseData (d : CourseData) : Bool :=
  d.type = "course" && d.title.trim ≠ "" &&
    (match d.description with | some s => s.trim ≠ "" | none => false) &&
    (match d.category with | some s => s.trim ≠ "" | none => false) &&
    (match d.level with
     | some s => s = "Beginner" ∨ s = "Intermediate" ∨ s = "Advanced"
     | none => false)

/-- `isValidSectionData` of `type-guards.ts`. -/
def isValidSectionData (d : CourseData) : Bool :=
  d.type = "section" && d.title.trim ≠ "" && 0 < d.order

/-- `isValidLessonData` of `type-guards.ts`. -/
def isValidLessonData (d : CourseData) : Bool :=
  d.type = "lesson" && d.title.trim ≠ "" && 0 < d.order

/-- `validateCourseEntries` of `type-guards.ts`: keep entries whose data
passes the kind-specific validator. -/
def validateCourseEntries (entries : List CourseEntry) : List CourseEntry :=
  entries.filter fun e =>
    if e.data.type = "course" then isValidCourseData e.data
    else if e.data.type = "section" then isValidSectionData e.data
    else if e.data.type = "lesson" then isValidLessonData e.data
    else false

/-- Outcome of one aggregation call: the returned list, the content cache
and sort cache afterwards, and whether the Store Adapter was invoked. -/
structure FetchResult where
  result : List CourseEntry
  cache : ContentCache
  sortCache : SortCache CourseEntry
  invokedStore : Bool
  deriving DecidableEq

/-- The cached `getAllCourseLessons`: on a content-cache hit with a valid
TTL, return the cached list (no store invocation); on a miss, query the
store (`col` filtered by the predicate), validate, sort with
`sortAllCourseLessons`, and store the result under the course slug. -/
def getAllCourseLessonsM (env : Env) (now : Int) (col : List CourseEntry)
    (courseSlug : String) (c : ContentCache) (σ : SortCache CourseEntry) : FetchResult :=
  match List.lookup courseSlug c.courseLessons, isCacheValid env.nodeEnv now c.lastUpdated with
  | some cached, true => ⟨cached, c, σ, false⟩
  | _, _ =>
    let allLessons := col.filter (allCourseLessonsPred env courseSlug)
    let validated := validateCourseEntries allLessons
    let sorted := (sortAllCourseLessons σ env.nodeEnv validated (some courseSlug)).fst
    let σ' := (sortAllCourseLessons σ env.nodeEnv validated (some courseSlug)).snd
    ⟨sorted, { c with courseLessons := (courseSlug, sorted) :: c.courseLessons }, σ', true⟩

/-- The module-level mutable state of the content layer: the content cache
of the cached `course-utils` module and the sort cache of
`optimized-sorting.ts`. -/
structure SiteState where
  content : ContentCache
  sorts : SortCache CourseEntry

/-- `clearContentCache` acts on the whole module state: it resets the
content cache only — the sort cache is not touched. -/
def clearContentCacheS (s : SiteState) : SiteState :=
  { s with content := clearContentCache s.content }

/-! ## Post aggregation (`src/utils/content-utils.ts`) -/

/-- The inline comparator of `getRawSortedPosts`: compare `published` dates,
`dateA > dateB ? -1 : 1`. -/
def rawPostsCompare (a b : PostEntry) : Int :=
  rawDateCompare a.data.published b.data.published

/-- `getRawSortedPosts`: filter by the production draft predicate, then sort
with the built-in sort under `rawPostsCompare`. -/
def getRawSortedPosts (prod : Bool) (col : List PostEntry) : List PostEntry :=
  nativeSort rawPostsCompare (col.filter (postsFilter prod))

/-- The effect of the two index loops of `getSortedPosts` on the post at
index `i` of the sorted list `sorted`: posts at `i ≥ 1` get `nextSlug` /
`nextTitle` from post `i-1`; posts at `i < length-1` get `prevSlug` /
`prevTitle` from post `i+1`; other fields are untouched. -/
def navPost (sorted : List PostEntry) (i : Nat) (p : PostEntry) : PostEntry :=
  let p₁ :=
    match (if 1 ≤ i then sorted.get? (i - 1) else none) with
    | some q =>
      { p with data := { p.data with nextSlug := some q.slug, nextTitle := some q.data.title } }
    | none => p
  match (if i + 1 < sorted.length then sorted.get? (i + 1) else none) with
  | some q =>
    { p₁ with data := { p₁.data with prevSlug := some q.slug, prevTitle := some q.data.title } }
  | none => p₁

/-- Apply `navPost` at each index, starting at index `k`. -/
def applyNavAux (sorted : List PostEntry) : Nat → List PostEntry → List PostEntry
  | _, [] => []
  | k, p :: rest => navPost sorted k p :: applyNavAux sorted (k + 1) rest

/-- `getSortedPosts` of `content-utils.ts`: the raw sorted posts with the
prev/next navigation fields filled in by the two loops. -/
def getSortedPosts (prod : Bool) (col : List PostEntry) : List PostEntry :=
  let sorted := getRawSortedPosts prod col
  applyNavAux sorted 0 sorted

/-! ## Pinned-course feed (`src/utils/content/archive-utils.ts`) -/

/-- The `siteConfig.pinnedCourse` configuration record (`courseSlug` may be
absent). -/
structure PinnedCourseConfig where
  enable : Bool
  courseSlug : Option String
  deriving DecidableEq

/-- JS truthiness of the configured `courseSlug`. -/
def PinnedCourseConfig.slugTruthy (cfg : PinnedCourseConfig) : Bool :=
  match cfg.courseSlug with
  | some s => s ≠ ""
  | none => false

/-- The mixed `PostOrCourse` display data. -/
structure PostOrCourseData where
  title : String
  published : Int
  updated : Option Int := none
  tags : Option (List String) := none
  category : Option String := none
  description : Option String := none
  image : Option String := none
  draft : Option Bool := none
  level : Option String := none
  totalLessons : Option Nat := none
  deriving DecidableEq

/-- A `PostOrCourse` feed item. -/
structure PostOrCourse where
  type : String
  entry : Sum PostEntry CourseEntry
  slug : String
  data : PostOrCourseData
  deriving DecidableEq

/-- The post-to-feed-item projection of `getSortedPostsWithPinnedCourse`
(`category: post.data.category || undefined` maps the empty string to
`undefined`). -/
def wrapPost (p : PostEntry) : PostOrCourse :=
  { type := "post", entry := .inl p, slug := p.slug,
    data := { title := p.data.title, published := p.data.published,
              updated := p.data.updated, tags := some p.data.tags,
              category := match p.data.category with
                          | some s => if s = "" then none else some s
                          | none => none,
              description := p.data.description, image := p.data.image,
              draft := p.data.draft } }

/-- The pinned-course feed item, carrying the computed total-lesson count. -/
def wrapPinnedCourse (c : CourseEntry) (totalLessons : Nat) : PostOrCourse :=
  { type := "course", entry := .inr c, slug := c.slug,
    data := { title := c.data.title, published := c.data.published,
              updated := c.data.updated, category := c.data.category,
              description := c.data.description, image := c.data.image,
              draft := c.data.draft, level := c.data.level,
              totalLessons := some totalLessons } }

/-- `getSortedCourses` of `src/utils/content/course-utils.ts`: courses
(non-draft in production), sorted newest first with the built-in sort. -/
def getSortedCoursesSimple (prod : Bool) (col : List CourseEntry) : List CourseEntry :=
  nativeSort coursesByDate
    (col.filter fun c => c.data.type = "course" && (if prod then !(c.data.draft == some true) else true))

/-- The draft predicate of the un-cached `getSortedLessons` /
`getAllCourseLessons`: `"draft" in data ? (PROD ? draft !== true : true) : true`. -/
def lessonDraftFilter (prod : Bool) (e : CourseEntry) : Bool :=
  match e.data.draft with
  | none => true
  | some d => if prod then !d else true

/-- `getAllCourseLessons` of `src/utils/content/course-utils.ts`: visible
lessons under the course, in global section-then-order order. -/
def getAllCourseLessonsSimple (prod : Bool) (col : List CourseEntry) (courseSlug : String) :
    List CourseEntry :=
  nativeSort lessonsBySectionAndOrder
    (col.filter fun e =>
      e.data.type = "lesson" && e.id.startsWith courseSlug && lessonDraftFilter prod e)

/-- The body of the `try` block of `getSortedPostsWithPinnedCourse`: resolve
the configured course against the (possibly throwing) store responses
`coursesRes` / `lessonsRes` and produce the pinned feed item, if any. -/
def pinnedLookup (prod : Bool) (slug : String)
    (coursesRes lessonsRes : Except Unit (List CourseEntry)) :
    Except Unit (List PostOrCourse) := do
  let courses := getSortedCoursesSimple prod (← coursesRes)
  match courses.find? (fun c => c.slug == slug) with
  | some pinnedCourse =>
    if pinnedCourse.data.type = "course" then
      let allLessons := getAllCourseLessonsSimple prod (← lessonsRes) pinnedCourse.slug
      pure [wrapPinnedCourse pinnedCourse allLessons.length]
    else pure []
  | none => pure []

/-- `getSortedPostsWithPinnedCourse` of `archive-utils.ts`: optionally the
pinned course (failures inside the `try` are caught and yield no pinned
item), followed by all posts in date order. -/
def getSortedPostsWithPinnedCourse (cfg : PinnedCourseConfig) (prod : Bool)
    (postsCol : List PostEntry) (coursesRes lessonsRes : Except Unit (List CourseEntry)) :
    List PostOrCourse :=
  let posts := getRawSortedPosts prod postsCol
  let pinned :=
    if cfg.enable && cfg.slugTruthy then
      match pinnedLookup prod (cfg.courseSlug.getD "") coursesRes lessonsRes with
      | .ok items => items
      | .error _ => []
    else []
  pinned ++ posts.map wrapPost


/-! ## Sorting library: permutation, sortedness, stability

Throughout, a comparator `cmp` is *consistent* when its signs are
antisymmetric (`cmp a b < 0 ↔ 0 < cmp b a`) and the relation
`cmp a b ≤ 0` is transitive.  Every comparator of the sorting layer,
restricted to entries of the kind it guards on, is consistent. -/

theorem mem_insertS {cmp : α → α → Int} {a y : α} {l : List α} :
    y ∈ insertS cmp a l ↔ y = a ∨ y ∈ l := by
  induction l with
  | nil => simp [insertS]
  | cons b s ih =>
    simp only [insertS]
    split
    · simp [List.mem_cons]
    · simp only [List.mem_cons, ih]
      tauto

theorem insertS_perm (cmp : α → α → Int) (a : α) (l : List α) :
    List.Perm (insertS cmp a l) (a :: l) := by
  induction l with
  | nil => rfl
  | cons b s ih =>
    simp only [insertS]
    split
    · rfl
    · exact (ih.cons b).trans (List.Perm.swap a b s)

theorem nativeSort_perm (cmp : α → α → Int) (l : List α) :
    List.Perm (nativeSort cmp l) l := by
  induction l with
  | nil => rfl
  | cons a l ih => exact (insertS_perm cmp a (nativeSort cmp l)).trans (ih.cons a)

theorem insertS_pairwise {cmp : α → α → Int} {R : α → α → Prop}
    (htr : ∀ x y z, R x y → R y z → R x z)
    (h1 : ∀ x y, cmp x y ≤ 0 → R x y) (h2 : ∀ x y, 0 < cmp x y → R y x)
    {a : α} {l : List α} (hs : l.Pairwise R) : (insertS cmp a l).Pairwise R := by
  induction l with
  | nil => simp [insertS]
  | cons b s ih =>
    rw [List.pairwise_cons] at hs
    simp only [insertS]
    split
    · rename_i hle
      refine List.pairwise_cons.mpr ⟨?_, List.pairwise_cons.mpr hs⟩
      intro y hy
      rcases List.mem_cons.mp hy with h | h
      · exact h ▸ h1 a b hle
      · exact htr a b y (h1 a b hle) (hs.1 y h)
    · rename_i hgt
      refine List.pairwise_cons.mpr ⟨?_, ih hs.2⟩
      intro y hy
      rcases mem_insertS.mp hy with h | h
      · exact h ▸ h2 a b (by omega)
      · exact hs.1 y h

theorem nativeSort_pairwise {cmp : α → α → Int} {R : α → α → Prop}
    (htr : ∀ x y z, R x y → R y z → R x z)
    (h1 : ∀ x y, cmp x y ≤ 0 → R x y) (h2 : ∀ x y, 0 < cmp x y → R y x)
    (l : List α) : (nativeSort cmp l).Pairwise R := by
  induction l with
  | nil => simp [nativeSort]
  | cons a l ih => exact insertS_pairwise htr h1 h2 ih

theorem mergeR_perm (cmp : α → α → Int) (l r : List α) :
    List.Perm (mergeR cmp l r) (l ++ r) := by
  induction l generalizing r with
  | nil => simp [mergeR]
  | cons a l ih =>
    induction r with
    | nil => simp [mergeR]
    | cons b rs ihr =>
      simp only [mergeR]
      split
      · exact (ih (b :: rs)).cons a
      · exact (ihr.cons b).trans List.perm_middle.symm

theorem mem_mergeR {cmp : α → α → Int} {l r : List α} {y : α} :
    y ∈ mergeR cmp l r ↔ y ∈ l ∨ y ∈ r := by
  rw [(mergeR_perm cmp l r).mem_iff, List.mem_append]

theorem mergeR_pairwise {cmp : α → α → Int} {R : α → α → Prop}
    (htr : ∀ x y z, R x y → R y z → R x z)
    (h1 : ∀ x y, cmp x y ≤ 0 → R x y) (h2 : ∀ x y, 0 < cmp x y → R y x) :
    ∀ {l r : List α}, l.Pairwise R → r.Pairwise R → (mergeR cmp l r).Pairwise R := by
  intro l
  induction l with
  | nil => intro r _ hr; simpa [mergeR] using hr
  | cons a l ih =>
    intro r hl hr
    induction r with
    | nil => simpa [mergeR] using hl
    | cons b rs ihr =>
      rw [List.pairwise_cons] at hl hr
      simp only [mergeR]
      split
      · rename_i hle
        refine List.pairwise_cons.mpr ⟨?_, ih hl.2 (List.pairwise_cons.mpr hr)⟩
        intro y hy
        rcases mem_mergeR.mp hy with h | h
        · exact hl.1 y h
        · rcases List.mem_cons.mp h with h' | h'
          · exact h' ▸ h1 a b hle
          · exact htr a b y (h1 a b hle) (hr.1 y h')
      · rename_i hgt
        refine List.pairwise_cons.mpr ⟨?_, ihr hr.2⟩
        intro y hy
        rcases mem_mergeR.mp hy with h | h
        · rcases List.mem_cons.mp h with h' | h'
          · exact h' ▸ h2 a b (by omega)
          · exact htr b a y (h2 a b (by omega)) (hl.1 y h')
        · exact hr.1 y h

theorem cmp_zero_symm {cmp : α → α → Int} (hsgn : ∀ a b, cmp a b < 0 ↔ 0 < cmp b a)
    {a b : α} (h : cmp a b = 0) : cmp b a = 0 := by
  have h1 := hsgn a b
  have h2 := hsgn b a
  omega

theorem mergeSortR_perm (cmp : α → α → Int) (l : List α) :
    List.Perm (mergeSortR cmp l) l := by
  rw [mergeSortR]
  split
  · exact .refl l
  · rename_i h
    have ht := mergeSortR_perm cmp (l.take (l.length / 2))
    have hd := mergeSortR_perm cmp (l.drop (l.length / 2))
    have hp := (mergeR_perm cmp _ _).trans (ht.append hd)
    rwa [List.take_append_drop] at hp
termination_by l.length
decreasing_by
  · simp only [List.length_take]
    omega
  · simp only [List.length_drop]
    omega

theorem mergeSortR_pairwise {cmp : α → α → Int} {R : α → α → Prop}
    (htr : ∀ x y z, R x y → R y z → R x z)
    (h1 : ∀ x y, cmp x y ≤ 0 → R x y) (h2 : ∀ x y, 0 < cmp x y → R y x)
    (l : List α) : (mergeSortR cmp l).Pairwise R := by
  rw [mergeSortR]
  split
  · rename_i h
    match l, h with
    | [], _ => simp
    | [a], _ => simp
  · rename_i h
    exact mergeR_pairwise htr h1 h2
      (mergeSortR_pairwise htr h1 h2 (l.take (l.length / 2)))
      (mergeSortR_pairwise htr h1 h2 (l.drop (l.length / 2)))
termination_by l.length
decreasing_by
  · simp only [List.length_take]
    omega
  · simp only [List.length_drop]
    omega

/-- Sortedness of `mergeSortR` under a consistent comparator
(`R` is `cmp · · ≤ 0`). -/
theorem mergeSortR_sortedC {cmp : α → α → Int}
    (hsgn : ∀ a b, cmp a b < 0 ↔ 0 < cmp b a)
    (htr : ∀ a b c, cmp a b ≤ 0 → cmp b c ≤ 0 → cmp a c ≤ 0)
    (l : List α) : (mergeSortR cmp l).Pairwise (fun a b => cmp a b ≤ 0) :=
  mergeSortR_pairwise htr (fun _ _ h => h)
    (fun x y h => by have := hsgn y x; omega) l

theorem insertS_filter {cmp : α → α → Int}
    (hsgn : ∀ a b, cmp a b < 0 ↔ 0 < cmp b a)
    (htr : ∀ a b c, cmp a b ≤ 0 → cmp b c ≤ 0 → cmp a c ≤ 0)
    (x a : α) (l : List α) :
    (insertS cmp a l).filter (fun y => cmp x y == 0)
      = if cmp x a = 0 then a :: l.filter (fun y => cmp x y == 0)
        else l.filter (fun y => cmp x y == 0) := by
  induction l with
  | nil =>
    by_cases hxa : cmp x a = 0 <;> simp [insertS, List.filter_cons, hxa]
  | cons b s ih =>
    simp only [insertS]
    split
    · rename_i hab
      by_cases hxa : cmp x a = 0 <;> simp [List.filter_cons, hxa]
    · rename_i hab
      by_cases hxa : cmp x a = 0
      · have hxb : ¬ cmp x b = 0 := by
          intro hxb
          exact hab (htr a x b (le_of_eq (cmp_zero_symm hsgn hxa)) (le_of_eq hxb))
        simp [List.filter_cons, hxa, hxb, ih]
      · by_cases hxb : cmp x b = 0 <;> simp [List.filter_cons, hxa, hxb, ih]

theorem nativeSort_filter {cmp : α → α → Int}
    (hsgn : ∀ a b, cmp a b < 0 ↔ 0 < cmp b a)
    (htr : ∀ a b c, cmp a b ≤ 0 → cmp b c ≤ 0 → cmp a c ≤ 0)
    (x : α) (l : List α) :
    (nativeSort cmp l).filter (fun y => cmp x y == 0)
      = l.filter (fun y => cmp x y == 0) := by
  induction l with
  | nil => rfl
  | cons a l ih =>
    simp only [nativeSort]
    rw [insertS_filter hsgn htr, ih]
    by_cases hxa : cmp x a = 0 <;> simp [List.filter_cons, hxa]

theorem mergeR_filter {cmp : α → α → Int}
    (hsgn : ∀ a b, cmp a b < 0 ↔ 0 < cmp b a)
    (htr : ∀ a b c, cmp a b ≤ 0 → cmp b c ≤ 0 → cmp a c ≤ 0)
    (x : α) :
    ∀ {l r : List α}, l.Pairwise (fun u v => cmp u v ≤ 0) →
      (mergeR cmp l r).filter (fun y => cmp x y == 0)
        = l.filter (fun y => cmp x y == 0) ++ r.filter (fun y => cmp x y == 0) := by
  intro l
  induction l with
  | nil => intro r _; simp [mergeR]
  | cons a l ih =>
    intro r hl
    induction r with
    | nil => simp [mergeR]
    | cons b rs ihr =>
      rw [List.pairwise_cons] at hl
      simp only [mergeR]
      split
      · rename_i hab
        rw [List.filter_cons, List.filter_cons]
        rw [ih hl.2]
        by_cases hxa : cmp x a = 0 <;> simp [hxa]
      · rename_i hab
        by_cases hxb : cmp x b = 0
        · have hnil : (a :: l).filter (fun y => cmp x y == 0) = [] := by
            rw [List.filter_eq_nil_iff]
            intro c hc
            simp only [beq_iff_eq]
            intro hxc
            have hcb : cmp c b ≤ 0 :=
              htr c x b (le_of_eq (cmp_zero_symm hsgn hxc)) (le_of_eq hxb)
            rcases List.mem_cons.mp hc with h | h
            · exact hab (h ▸ hcb)
            · exact hab (htr a c b (hl.1 c h) hcb)
          simp [List.filter_cons, hxb, ihr, hnil]
        · simp [List.filter_cons, hxb, ihr]

theorem mergeSortR_filter {cmp : α → α → Int}
    (hsgn : ∀ a b, cmp a b < 0 ↔ 0 < cmp b a)
    (htr : ∀ a b c, cmp a b ≤ 0 → cmp b c ≤ 0 → cmp a c ≤ 0)
    (x : α) (l : List α) :
    (mergeSortR cmp l).filter (fun y => cmp x y == 0)
      = l.filter (fun y => cmp x y == 0) := by
  rw [mergeSortR]
  split
  · rfl
  · rename_i h
    rw [mergeR_filter hsgn htr x (mergeSortR_sortedC hsgn htr _),
      mergeSortR_filter hsgn htr x (l.take (l.length / 2)),
      mergeSortR_filter hsgn htr x (l.drop (l.length / 2)),
      ← List.filter_append, List.take_append_drop]
termination_by l.length
decreasing_by
  · simp only [List.length_take]
    omega
  · simp only [List.length_drop]
    omega

/-- A sorted permutation with the same per-equivalence-class contents is
unique: stable sorts have a unique output. -/
theorem stable_sort_unique {cmp : α → α → Int}
    (hsgn : ∀ a b, cmp a b < 0 ↔ 0 < cmp b a) :
    ∀ (o₁ o₂ : List α), List.Perm o₁ o₂ →
      o₁.Pairwise (fun a b => cmp a b ≤ 0) → o₂.Pairwise (fun a b => cmp a b ≤ 0) →
      (∀ x, o₁.filter (fun y => cmp x y == 0) = o₂.filter (fun y => cmp x y == 0)) →
      o₁ = o₂ := by
  intro o₁
  induction o₁ with
  | nil =>
    intro o₂ hp _ _ _
    exact (hp.nil_eq).symm ▸ rfl
  | cons a t₁ ih =>
    intro o₂ hp h₁ h₂ hf
    match o₂ with
    | [] => exact absurd hp.symm (by simp)
    | b :: t₂ =>
      have hab : a = b := by
        have haa : cmp a a = 0 := by have := hsgn a a; omega
        have h := hf a
        rw [List.filter_cons, List.filter_cons] at h
        simp only [haa, beq_self_eq_true, if_pos] at h
        by_cases hxb : cmp a b = 0
        · simpa [hxb] using List.head_eq_of_cons_eq (by simpa [hxb] using h)
        · -- a is in o₂'s class-of-a filter; its head must be a
          have ha₂ : a ∈ b :: t₂ := hp.mem_iff.mp (List.mem_cons_self a t₁)
          have hat₂ : a ∈ t₂ := by
            rcases List.mem_cons.mp ha₂ with h' | h'
            · exact absurd (h' ▸ haa) hxb
            · exact h'
          have hba : cmp b a ≤ 0 := (List.pairwise_cons.mp h₂).1 a hat₂
          have hb₁ : b ∈ a :: t₁ := hp.symm.mem_iff.mp (List.mem_cons_self b t₂)
          have hbt₁ : b ∈ t₁ := by
            rcases List.mem_cons.mp hb₁ with h' | h'
            · exact absurd (h' ▸ haa) (fun hh => hxb (cmp_zero_symm hsgn hh))
            · exact h'
          have hab' : cmp a b ≤ 0 := (List.pairwise_cons.mp h₁).1 b hbt₁
          have : cmp a b = 0 := by have := hsgn a b; omega
          exact absurd this hxb
      subst hab
      have hpt : List.Perm t₁ t₂ := hp.cons_inv
      have hft : ∀ x, t₁.filter (fun y => cmp x y == 0) = t₂.filter (fun y => cmp x y == 0) := by
        intro x
        have h := hf x
        rw [List.filter_cons, List.filter_cons] at h
        by_cases hxa : cmp x a = 0
        · simpa [hxa] using h
        · simpa [hxa] using h
      rw [ih t₂ hpt (List.pairwise_cons.mp h₁).2 (List.pairwise_cons.mp h₂).2 hft]

/-- Sortedness of `nativeSort` under a consistent comparator. -/
theorem nativeSort_sortedC {cmp : α → α → Int}
    (hsgn : ∀ a b, cmp a b < 0 ↔ 0 < cmp b a)
    (htr : ∀ a b c, cmp a b ≤ 0 → cmp b c ≤ 0 → cmp a c ≤ 0)
    (l : List α) : (nativeSort cmp l).Pairwise (fun a b => cmp a b ≤ 0) :=
  nativeSort_pairwise htr (fun _ _ h => h)
    (fun x y h => by have := hsgn y x; omega) l

/-- For a consistent comparator, the repository's merge sort coincides with
the stable built-in sort: both are the unique stable sorted permutation. -/
theorem mergeSortR_eq_nativeSort {cmp : α → α → Int}
    (hsgn : ∀ a b, cmp a b < 0 ↔ 0 < cmp b a)
    (htr : ∀ a b c, cmp a b ≤ 0 → cmp b c ≤ 0 → cmp a c ≤ 0)
    (l : List α) : mergeSortR cmp l = nativeSort cmp l :=
  stable_sort_unique hsgn (mergeSortR cmp l) (nativeSort cmp l)
    ((mergeSortR_perm cmp l).trans (nativeSort_perm cmp l).symm)
    (mergeSortR_sortedC hsgn htr l)
    (nativeSort_sortedC hsgn htr l)
    (fun x => (mergeSortR_filter hsgn htr x l).trans (nativeSort_filter hsgn htr x l).symm)

/-! ## Comparator congruence: sorting only evaluates the comparator on
elements of the input, so two comparators that agree on the input's elements
sort it identically. -/

theorem insertS_congr {cmp₁ cmp₂ : α → α → Int} {a : α} {l : List α}
    (h : ∀ y ∈ l, cmp₁ a y = cmp₂ a y) : insertS cmp₁ a l = insertS cmp₂ a l := by
  induction l with
  | nil => rfl
  | cons b s ih =>
    simp only [insertS, h b (List.mem_cons_self b s)]
    split
    · rfl
    · rw [ih (fun y hy => h y (List.mem_cons_of_mem b hy))]

theorem nativeSort_congr {cmp₁ cmp₂ : α → α → Int} {l : List α}
    (h : ∀ x ∈ l, ∀ y ∈ l, cmp₁ x y = cmp₂ x y) : nativeSort cmp₁ l = nativeSort cmp₂ l := by
  induction l with
  | nil => rfl
  | cons a s ih =>
    simp only [nativeSort]
    rw [ih (fun x hx y hy => h x (List.mem_cons_of_mem a hx) y (List.mem_cons_of_mem a hy))]
    exact insertS_congr fun y hy =>
      h a (List.mem_cons_self a s) y
        (List.mem_cons_of_mem a ((nativeSort_perm cmp₂ s).mem_iff.mp hy))

theorem mergeR_congr {cmp₁ cmp₂ : α → α → Int} :
    ∀ {l r : List α}, (∀ x ∈ l, ∀ y ∈ r, cmp₁ x y = cmp₂ x y) →
      mergeR cmp₁ l r = mergeR cmp₂ l r := by
  intro l
  induction l with
  | nil => intro r _; simp [mergeR]
  | cons a l ih =>
    intro r h
    induction r with
    | nil => simp [mergeR]
    | cons b rs ihr =>
      simp only [mergeR, h a (List.mem_cons_self a l) b (List.mem_cons_self b rs)]
      split
      · rw [ih (fun x hx y hy => h x (List.mem_cons_of_mem a hx) y hy)]
      · rw [ihr (fun x hx y hy => h x hx y (List.mem_cons_of_mem b hy))]

theorem mergeSortR_congr {cmp₁ cmp₂ : α → α → Int} (l : List α)
    (h : ∀ x ∈ l, ∀ y ∈ l, cmp₁ x y = cmp₂ x y) : mergeSortR cmp₁ l = mergeSortR cmp₂ l := by
  by_cases hlen : l.length ≤ 1
  · conv_lhs => rw [mergeSortR]
    conv_rhs => rw [mergeSortR]
    rw [dif_pos hlen, dif_pos hlen]
  · conv_lhs => rw [mergeSortR]
    conv_rhs => rw [mergeSortR]
    rw [dif_neg hlen, dif_neg hlen]
    have htk : ∀ x ∈ l.take (l.length / 2), x ∈ l := fun x hx => List.mem_of_mem_take hx
    have hdr : ∀ x ∈ l.drop (l.length / 2), x ∈ l := fun x hx => List.mem_of_mem_drop hx
    have h₁ := @mergeSortR_congr _ cmp₁ cmp₂ (l.take (l.length / 2))
      (fun x hx y hy => h x (htk x hx) y (htk y hy))
    have h₂ := @mergeSortR_congr _ cmp₁ cmp₂ (l.drop (l.length / 2))
      (fun x hx y hy => h x (hdr x hx) y (hdr y hy))
    rw [h₁, h₂]
    exact mergeR_congr fun x hx y hy =>
      h x (htk x ((mergeSortR_perm cmp₂ _).mem_iff.mp hx))
        y (hdr y ((mergeSortR_perm cmp₂ _).mem_iff.mp hy))
termination_by l.length
decreasing_by
  · simp only [List.length_take]
    omega
  · simp only [List.length_drop]
    omega

/-! ## Facts about the concrete comparators -/

/-- On an empty sort cache, `sortWithCache` always takes the computing
branch: built-in sort up to 50 elements, merge sort above. -/
theorem sortWithCache_empty_fst (nodeEnv : String) (items : List α)
    (cmp : α → α → Int) (key : Option String) :
    (sortWithCache [] nodeEnv items cmp key).fst
      = if items.length ≤ 50 then nativeSort cmp items else mergeSortR cmp items := by
  cases key <;> simp [sortWithCache, List.lookup]

theorem localeCompareInt_neg {a b : String} : localeCompareInt a b < 0 ↔ a < b := by
  unfold localeCompareInt
  rcases lt_trichotomy a b with h | h | h
  · rw [if_pos h]
    exact iff_of_true (by omega) h
  · subst h
    rw [if_neg (lt_irrefl a), if_pos rfl]
    exact iff_of_false (by omega) (lt_irrefl a)
  · rw [if_neg (lt_asymm h), if_neg (ne_of_gt h)]
    exact iff_of_false (by omega) (lt_asymm h)

theorem localeCompareInt_pos {a b : String} : 0 < localeCompareInt a b ↔ b < a := by
  unfold localeCompareInt
  rcases lt_trichotomy a b with h | h | h
  · rw [if_pos h]
    exact iff_of_false (by omega) (lt_asymm h)
  · subst h
    rw [if_neg (lt_irrefl a), if_pos rfl]
    exact iff_of_false (by omega) (lt_irrefl a)
  · rw [if_neg (lt_asymm h), if_neg (ne_of_gt h)]
    exact iff_of_true (by omega) h

theorem localeCompareInt_eq_zero {a b : String} : localeCompareInt a b = 0 ↔ a = b := by
  unfold localeCompareInt
  rcases lt_trichotomy a b with h | h | h
  · rw [if_pos h]
    exact iff_of_false (by omega) (ne_of_lt h)
  · subst h
    rw [if_neg (lt_irrefl a), if_pos rfl]
    exact iff_of_true rfl rfl
  · rw [if_neg (lt_asymm h), if_neg (ne_of_gt h)]
    exact iff_of_false (by omega) (ne_of_gt h)

/-- The unguarded global-lesson comparator: section segment by
`localeCompare`, then `order`.  `lessonsBySectionAndOrder` agrees with it on
any pair of lesson entries. -/
def sectionOrderCmp (a b : CourseEntry) : Int :=
  if sectionSeg a ≠ sectionSeg b then localeCompareInt (sectionSeg a) (sectionSeg b)
  else a.data.order - b.data.order

theorem lessonsBySectionAndOrder_eq_sectionOrderCmp {a b : CourseEntry}
    (ha : a.data.type = "lesson") (hb : b.data.type = "lesson") :
    lessonsBySectionAndOrder a b = sectionOrderCmp a b := by
  simp [lessonsBySectionAndOrder, sectionOrderCmp, ha, hb]

/-- The global-lesson ordering relation asserted by the specification:
section segment ascending lexicographically, within one section ascending by
`order`. -/
def lessonGlobalLe (a b : CourseEntry) : Prop :=
  sectionSeg a < sectionSeg b ∨ (sectionSeg a = sectionSeg b ∧ a.data.order ≤ b.data.order)

theorem sectionOrderCmp_nonpos {a b : CourseEntry} :
    sectionOrderCmp a b ≤ 0 ↔ lessonGlobalLe a b := by
  unfold sectionOrderCmp lessonGlobalLe
  by_cases h : sectionSeg a = sectionSeg b
  · rw [if_neg (not_not_intro h)]
    constructor
    · intro hle
      exact Or.inr ⟨h, by omega⟩
    · rintro (hlt | ⟨_, hord⟩)
      · exact absurd hlt (h ▸ lt_irrefl _)
      · omega
  · rw [if_pos h]
    constructor
    · intro hle
      rcases lt_or_eq_of_le hle with hlt | heq
      · exact Or.inl (localeCompareInt_neg.mp hlt)
      · exact absurd (localeCompareInt_eq_zero.mp heq) h
    · rintro (hlt | ⟨heq, _⟩)
      · have := localeCompareInt_neg.mpr hlt
        omega
      · exact absurd heq h

theorem sectionOrderCmp_sgn (a b : CourseEntry) :
    sectionOrderCmp a b < 0 ↔ 0 < sectionOrderCmp b a := by
  unfold sectionOrderCmp
  by_cases h : sectionSeg a = sectionSeg b
  · rw [if_neg (not_not_intro h), if_neg (not_not_intro h.symm)]
    omega
  · rw [if_pos h, if_pos (Ne.symm h)]
    rw [localeCompareInt_neg, localeCompareInt_pos]

theorem lessonGlobalLe_trans (a b c : CourseEntry)
    (h₁ : lessonGlobalLe a b) (h₂ : lessonGlobalLe b c) : lessonGlobalLe a c := by
  unfold lessonGlobalLe at *
  rcases h₁ with h₁ | ⟨he₁, ho₁⟩ <;> rcases h₂ with h₂ | ⟨he₂, ho₂⟩
  · exact Or.inl (lt_trans h₁ h₂)
  · exact Or.inl (he₂ ▸ h₁)
  · exact Or.inl (he₁ ▸ h₂)
  · exact Or.inr ⟨he₁.trans he₂, le_trans ho₁ ho₂⟩

theorem sectionOrderCmp_trans (a b c : CourseEntry)
    (h₁ : sectionOrderCmp a b ≤ 0) (h₂ : sectionOrderCmp b c ≤ 0) :
    sectionOrderCmp a c ≤ 0 :=
  sectionOrderCmp_nonpos.mpr
    (lessonGlobalLe_trans a b c (sectionOrderCmp_nonpos.mp h₁) (sectionOrderCmp_nonpos.mp h₂))

/-! # Claims -/

/-! ## C7 — cache TTL (corrected)

The claim says the TTL is zero in *every* non-production mode.  The code
branches on `NODE_ENV === "development"`, not on `!== "production"`: for
`NODE_ENV = "test"` (non-production) the TTL is infinite, not zero. -/

/-- C7, counterexample: with `NODE_ENV = "test"` — a non-production mode —
the TTL is infinite, not zero, and a populated cache is still considered
valid (the read is not treated as a miss), contradicting the claim. -/
theorem claim_C7_counterexample :
    "test" ≠ "production" ∧ cacheTTL "test" ≠ some 0 ∧ isCacheValid "test" 1000 0 = true := by
  refine ⟨by decide, ?_, by decide⟩
  simp [cacheTTL]

/-- C7 (amended): the cache TTL is zero exactly in development mode
(`NODE_ENV = "development"`) — there every read at a time not before the
last update is treated as a miss — and infinite in every other mode,
including production: a populated cache never expires. -/
theorem claim_C7_amended (nodeEnv : String) (now lastUpdated : Int) :
    (nodeEnv = "development" →
      cacheTTL nodeEnv = some 0
        ∧ (lastUpdated ≤ now → isCacheValid nodeEnv now lastUpdated = false))
    ∧ (nodeEnv ≠ "development" →
      cacheTTL nodeEnv = none ∧ isCacheValid nodeEnv now lastUpdated = true) := by
  constructor
  · intro h
    subst h
    refine ⟨by simp [cacheTTL], fun hle => ?_⟩
    simp [isCacheValid, cacheTTL]
    omega
  · intro h
    have ht : cacheTTL nodeEnv = none := by simp [cacheTTL, h]
    exact ⟨ht, by simp [isCacheValid, ht]⟩

/-- C7, witness: the amended claim at `NODE_ENV = "development"` (read at
time 5, cache updated at 3: miss) and at `NODE_ENV = "production"` (always
valid). -/
theorem claim_C7_witness :
    (cacheTTL "development" = some 0 ∧ isCacheValid "development" 5 3 = false)
    ∧ (cacheTTL "production" = none ∧ isCacheValid "production" 5 3 = true) :=
  ⟨⟨((claim_C7_amended "development" 5 3).1 rfl).1,
    ((claim_C7_amended "development" 5 3).1 rfl).2 (by omega)⟩,
    (claim_C7_amended "production" 5 3).2 (by decide)⟩

/-! ## C1 — draft visibility (corrected)

The claim asserts that in production a `draft=true` record appears in
the posts, courses and lessons listings iff the debug override is active.
That is what `shouldIncludeEntry` implements (used by the cached
course/lesson listings), but the posts listing `getRawSortedPosts` filters
with `import.meta.env.PROD ? data.draft !== true : true`, which ignores the
debug override: in production a draft post is excluded even when
`VITE_DEBUG=true`. -/

/-- C1, counterexample: in production with the debug override active
(`VITE_DEBUG="true"`), a `draft=true` post is excluded by the posts-listing
filter, so inclusion is not equivalent to the debug override being active. -/
theorem claim_C1_counterexample :
    (PostEntry.mk "draft-post" { title := "Draft", published := 0, draft := some true }).data.draft
        = some true
    ∧ isDebugMode "true" true = true
    ∧ ¬ (postsFilter true
          (PostEntry.mk "draft-post" { title := "Draft", published := 0, draft := some true }) = true
        ↔ isDebugMode "true" true = true) := by
  refine ⟨rfl, by decide, ?_⟩
  decide

/-- C1 (amended): for a record with `draft = true`: in non-production mode
it always passes both the `shouldIncludeEntry` visibility filter (used by
the course and lesson listings of the cached course-utils module) and the
posts-listing filter; in production mode it passes `shouldIncludeEntry` iff
the debug override is active, while the posts-listing filter excludes it
regardless of the debug override. -/
theorem claim_C1_amended (prod : Bool) (viteDebug : String) (d : Option Bool) (p : PostEntry)
    (hd : d = some true) (hp : p.data.draft = some true) :
    (prod = false →
      shouldIncludeEntry d viteDebug prod = true ∧ postsFilter prod p = true)
    ∧ (prod = true →
      (shouldIncludeEntry d viteDebug prod = true ↔ isDebugMode viteDebug prod = true)
        ∧ postsFilter prod p = false) := by
  subst hd
  constructor
  · intro h
    subst h
    constructor
    · simp [shouldIncludeEntry, shouldIncludeDraft, isDebugMode]
    · simp [postsFilter]
  · intro h
    subst h
    refine ⟨?_, by simp [postsFilter, hp]⟩
    simp [shouldIncludeEntry, shouldIncludeDraft]

/-- C1, witness: the amended claim at a concrete draft post, in development
mode and in production mode with the debug override active. -/
theorem claim_C1_witness :
    (shouldIncludeEntry (some true) "true" false = true
      ∧ postsFilter false (PostEntry.mk "p" { title := "T", published := 0, draft := some true }) = true)
    ∧ ((shouldIncludeEntry (some true) "true" true = true ↔ isDebugMode "true" true = true)
      ∧ postsFilter true (PostEntry.mk "p" { title := "T", published := 0, draft := some true }) = false) :=
  ⟨(claim_C1_amended false "true" (some true)
      (PostEntry.mk "p" { title := "T", published := 0, draft := some true }) rfl rfl).1 rfl,
   (claim_C1_amended true "true" (some true)
      (PostEntry.mk "p" { title := "T", published := 0, draft := some true }) rfl rfl).2 rfl⟩

/-! ## C6 — cache idempotence (confirmed, production mode)

In production mode the TTL is infinite, so the window of claim P7 spans the
whole build; in development the TTL is zero and the window is empty. -/

/-- C6: in production mode, starting from the initial caches, the first call
to `getAllCourseLessons` invokes the Store Adapter; a second call with the
same course slug returns a structurally equal (indeed identical) result
without invoking the Store Adapter and leaves the content cache unchanged;
after `clearContentCache()` the next call invokes the Store Adapter again. -/
theorem claim_C6 (prod : Bool) (viteDebug : String) (col : List CourseEntry)
    (slug : String) (now₁ now₂ now₃ : Int) :
    (getAllCourseLessonsM ⟨"production", prod, viteDebug⟩ now₁ col slug
        ContentCache.initial []).invokedStore = true
    ∧ (getAllCourseLessonsM ⟨"production", prod, viteDebug⟩ now₂ col slug
        (getAllCourseLessonsM ⟨"production", prod, viteDebug⟩ now₁ col slug
          ContentCache.initial []).cache
        (getAllCourseLessonsM ⟨"production", prod, viteDebug⟩ now₁ col slug
          ContentCache.initial []).sortCache).invokedStore = false
    ∧ (getAllCourseLessonsM ⟨"production", prod, viteDebug⟩ now₂ col slug
        (getAllCourseLessonsM ⟨"production", prod, viteDebug⟩ now₁ col slug
          ContentCache.initial []).cache
        (getAllCourseLessonsM ⟨"production", prod, viteDebug⟩ now₁ col slug
          ContentCache.initial []).sortCache).result
      = (getAllCourseLessonsM ⟨"production", prod, viteDebug⟩ now₁ col slug
          ContentCache.initial []).result
    ∧ (getAllCourseLessonsM ⟨"production", prod, viteDebug⟩ now₃ col slug
        (clearContentCache
          (getAllCourseLessonsM ⟨"production", prod, viteDebug⟩ now₂ col slug
            (getAllCourseLessonsM ⟨"production", prod, viteDebug⟩ now₁ col slug
              ContentCache.initial []).cache
            (getAllCourseLessonsM ⟨"production", prod, viteDebug⟩ now₁ col slug
              ContentCache.initial []).sortCache).cache)
        []).invokedStore = true := by
  have hvalid : ∀ now last, isCacheValid "production" now last = true := by
    intro now last
    simp [isCacheValid, cacheTTL]
  refine ⟨?_, ?_, ?_, ?_⟩ <;>
    simp [getAllCourseLessonsM, ContentCache.initial, clearContentCache, hvalid, List.lookup]

/-! ## C9 — length-keyed sort cache (confirmed)

`sortingUtils.sortCourses` derives its cache key only from the input's
length, and `clearContentCache` resets only the content cache. -/

/-- C9: in production mode, once `sortCourses` has cached a result under the
key `courses_<n>`, a later `sortCourses` call — even after
`clearContentCache()`, which leaves the sort cache untouched — whose input
merely has the same length `n` returns the earlier cached sorted array,
regardless of the second input's contents. -/
theorem claim_C9 (s₀ : SiteState) (l₁ l₂ : List CourseEntry)
    (hlen : l₂.length = l₁.length)
    (hmiss : List.lookup ("courses_" ++ toString l₁.length) s₀.sorts = none) :
    (clearContentCacheS ⟨s₀.content, (sortCourses s₀.sorts "production" l₁).snd⟩).sorts
      = (sortCourses s₀.sorts "production" l₁).snd
    ∧ (sortCourses
        (clearContentCacheS ⟨s₀.content, (sortCourses s₀.sorts "production" l₁).snd⟩).sorts
        "production" l₂).fst
      = (sortCourses s₀.sorts "production" l₁).fst := by
  refine ⟨rfl, ?_⟩
  simp only [clearContentCacheS]
  simp [sortCourses, sortWithCache, hmiss, hlen, List.lookup]

/-- C9, witness: two singleton course lists with different contents; the
second call returns the first call's (cached) sorted array. -/
theorem claim_C9_witness :
    ([CourseEntry.mk "b/x" "b" { type := "course", title := "B", published := 5 }]
        ≠ [CourseEntry.mk "a/x" "a" { type := "course", title := "A", published := 3 }])
    ∧ (sortCourses
        (clearContentCacheS ⟨ContentCache.initial,
          (sortCourses [] "production"
            [CourseEntry.mk "a/x" "a" { type := "course", title := "A", published := 3 }]).snd⟩).sorts
        "production"
        [CourseEntry.mk "b/x" "b" { type := "course", title := "B", published := 5 }]).fst
      = (sortCourses [] "production"
          [CourseEntry.mk "a/x" "a" { type := "course", title := "A", published := 3 }]).fst :=
  ⟨by decide,
    (claim_C9 ⟨ContentCache.initial, []⟩
      [CourseEntry.mk "a/x" "a" { type := "course", title := "A", published := 3 }]
      [CourseEntry.mk "b/x" "b" { type := "course", title := "B", published := 5 }]
      rfl rfl).2⟩

/-! ## C2 — global lesson ordering (confirmed) -/

/-- C2: on any list of lesson entries (as produced by the lesson-typed store
query of `getAllCourseLessons`), the sorting layer's global lesson ordering
(`sortAllCourseLessons`, fresh sort cache) returns a permutation of the
input that is pairwise ordered by section segment ascending
lexicographically, ties broken by ascending `order`. -/
theorem claim_C2 (nodeEnv : String) (lessons : List CourseEntry) (slug : String)
    (hles : ∀ e ∈ lessons, e.data.type = "lesson") :
    List.Perm (sortAllCourseLessons [] nodeEnv lessons (some slug)).fst lessons
    ∧ ((sortAllCourseLessons [] nodeEnv lessons (some slug)).fst).Pairwise lessonGlobalLe := by
  have hcong : ∀ x ∈ lessons, ∀ y ∈ lessons, lessonsBySectionAndOrder x y = sectionOrderCmp x y :=
    fun x hx y hy => lessonsBySectionAndOrder_eq_sectionOrderCmp (hles x hx) (hles y hy)
  have h1 : ∀ x y : CourseEntry, sectionOrderCmp x y ≤ 0 → lessonGlobalLe x y :=
    fun x y h => sectionOrderCmp_nonpos.mp h
  have h2 : ∀ x y : CourseEntry, 0 < sectionOrderCmp x y → lessonGlobalLe y x := by
    intro x y h
    apply sectionOrderCmp_nonpos.mp
    have := sectionOrderCmp_sgn y x
    omega
  have hfst : (sortAllCourseLessons [] nodeEnv lessons (some slug)).fst
      = if lessons.length ≤ 50 then nativeSort sectionOrderCmp lessons
        else mergeSortR sectionOrderCmp lessons := by
    show (sortWithCache [] nodeEnv lessons lessonsBySectionAndOrder _).fst = _
    rw [sortWithCache_empty_fst]
    by_cases hl : lessons.length ≤ 50
    · rw [if_pos hl, if_pos hl, nativeSort_congr hcong]
    · rw [if_neg hl, if_neg hl, mergeSortR_congr lessons hcong]
  constructor
  · rw [hfst]
    split
    · exact nativeSort_perm _ _
    · exact mergeSortR_perm _ _
  · rw [hfst]
    split
    · exact nativeSort_pairwise lessonGlobalLe_trans h1 h2 lessons
    · exact mergeSortR_pairwise lessonGlobalLe_trans h1 h2 lessons

/-- C2, witness: two lessons from different sections, given in reversed
order. -/
theorem claim_C2_witness :
    (∀ e ∈ [CourseEntry.mk "c/02-b/01-y" "y" { type := "lesson", title := "Y", published := 0, order := 1 },
            CourseEntry.mk "c/01-a/02-x" "x" { type := "lesson", title := "X", published := 0, order := 2 }],
        e.data.type = "lesson")
    ∧ List.Perm
        (sortAllCourseLessons [] "production"
          [CourseEntry.mk "c/02-b/01-y" "y" { type := "lesson", title := "Y", published := 0, order := 1 },
           CourseEntry.mk "c/01-a/02-x" "x" { type := "lesson", title := "X", published := 0, order := 2 }]
          (some "c")).fst
        [CourseEntry.mk "c/02-b/01-y" "y" { type := "lesson", title := "Y", published := 0, order := 1 },
         CourseEntry.mk "c/01-a/02-x" "x" { type := "lesson", title := "X", published := 0, order := 2 }]
    ∧ ((sortAllCourseLessons [] "production"
          [CourseEntry.mk "c/02-b/01-y" "y" { type := "lesson", title := "Y", published := 0, order := 1 },
           CourseEntry.mk "c/01-a/02-x" "x" { type := "lesson", title := "X", published := 0, order := 2 }]
          (some "c")).fst).Pairwise lessonGlobalLe :=
  ⟨by decide,
   (claim_C2 "production"
      [CourseEntry.mk "c/02-b/01-y" "y" { type := "lesson", title := "Y", published := 0, order := 1 },
       CourseEntry.mk "c/01-a/02-x" "x" { type := "lesson", title := "X", published := 0, order := 2 }]
      "c" (by decide)).1,
   (claim_C2 "production"
      [CourseEntry.mk "c/02-b/01-y" "y" { type := "lesson", title := "Y", published := 0, order := 1 },
       CourseEntry.mk "c/01-a/02-x" "x" { type := "lesson", title := "X", published := 0, order := 2 }]
      "c" (by decide)).2⟩

/-! ## C5 — newest-first date ordering (confirmed) -/

/-- The unguarded course date comparator (`coursesByDate` without the
`isCourse` guard); the two agree on any pair of course entries. -/
def courseDateCmp (a b : CourseEntry) : Int :=
  b.data.published - a.data.published

theorem coursesByDate_eq_courseDateCmp {a b : CourseEntry}
    (ha : a.data.type = "course") (hb : b.data.type = "course") :
    coursesByDate a b = courseDateCmp a b := by
  simp [coursesByDate, courseDateCmp, ha, hb]

/-- C5: in the posts listing (`getRawSortedPosts`, any mode, any store
contents) and in the courses listing's sort (`sortingUtils.sortCourses` on
course entries, fresh sort cache), whenever record `A` appears before
record `B` the published date of `A` is at least that of `B` (newest
first). -/
theorem claim_C5 (prod : Bool) (pcol : List PostEntry) (nodeEnv : String)
    (courses : List CourseEntry) (hcrs : ∀ e ∈ courses, e.data.type = "course") :
    (getRawSortedPosts prod pcol).Pairwise
      (fun a b => b.data.published ≤ a.data.published)
    ∧ ((sortCourses [] nodeEnv courses).fst).Pairwise
      (fun a b => b.data.published ≤ a.data.published) := by
  constructor
  · apply nativeSort_pairwise
    · intro x y z hxy hyz
      omega
    · intro x y h
      simp only [rawPostsCompare, rawDateCompare] at h
      split at h
      · omega
      · omega
    · intro x y h
      simp only [rawPostsCompare, rawDateCompare] at h
      split at h
      · omega
      · rename_i hgt
        omega
  · have hcong : ∀ x ∈ courses, ∀ y ∈ courses, coursesByDate x y = courseDateCmp x y :=
      fun x hx y hy => coursesByDate_eq_courseDateCmp (hcrs x hx) (hcrs y hy)
    have hfst : (sortCourses [] nodeEnv courses).fst
        = if courses.length ≤ 50 then nativeSort courseDateCmp courses
          else mergeSortR courseDateCmp courses := by
      show (sortWithCache [] nodeEnv courses coursesByDate _).fst = _
      rw [sortWithCache_empty_fst]
      by_cases hl : courses.length ≤ 50
      · rw [if_pos hl, if_pos hl, nativeSort_congr hcong]
      · rw [if_neg hl, if_neg hl, mergeSortR_congr courses hcong]
    rw [hfst]
    have h1 : ∀ x y : CourseEntry, courseDateCmp x y ≤ 0 → y.data.published ≤ x.data.published := by
      intro x y h
      simp only [courseDateCmp] at h
      omega
    have h2 : ∀ x y : CourseEntry, 0 < courseDateCmp x y → x.data.published ≤ y.data.published := by
      intro x y h
      simp only [courseDateCmp] at h
      omega
    have htr : ∀ x y z : CourseEntry, z.data.published ≤ y.data.published →
        y.data.published ≤ x.data.published → z.data.published ≤ x.data.published := by
      intro x y z h₁ h₂
      omega
    split
    · exact nativeSort_pairwise (fun x y z hxy hyz => by omega) h1 h2 courses
    · exact mergeSortR_pairwise (fun x y z hxy hyz => by omega) h1 h2 courses

/-- C5, witness: one out-of-order post pair and one out-of-order course
pair. -/
theorem claim_C5_witness :
    (∀ e ∈ [CourseEntry.mk "a/x" "a" { type := "course", title := "A", published := 3 },
            CourseEntry.mk "b/x" "b" { type := "course", title := "B", published := 7 }],
        e.data.type = "course")
    ∧ (getRawSortedPosts true
        [PostEntry.mk "p" { title := "P", published := 1 },
         PostEntry.mk "q" { title := "Q", published := 9 }]).Pairwise
        (fun a b => b.data.published ≤ a.data.published)
    ∧ ((sortCourses [] "production"
        [CourseEntry.mk "a/x" "a" { type := "course", title := "A", published := 3 },
         CourseEntry.mk "b/x" "b" { type := "course", title := "B", published := 7 }]).fst).Pairwise
        (fun a b => b.data.published ≤ a.data.published) :=
  ⟨by decide,
   (claim_C5 true
      [PostEntry.mk "p" { title := "P", published := 1 },
       PostEntry.mk "q" { title := "Q", published := 9 }]
      "production"
      [CourseEntry.mk "a/x" "a" { type := "course", title := "A", published := 3 },
       CourseEntry.mk "b/x" "b" { type := "course", title := "B", published := 7 }]
      (by decide)).1,
   (claim_C5 true
      [PostEntry.mk "p" { title := "P", published := 1 },
       PostEntry.mk "q" { title := "Q", published := 9 }]
      "production"
      [CourseEntry.mk "a/x" "a" { type := "course", title := "A", published := 3 },
       CourseEntry.mk "b/x" "b" { type := "course", title := "B", published := 7 }]
      (by decide)).2⟩

/-! ## C3 — merge sort path equals stable built-in sort (confirmed)

For more than 50 elements `sortWithCache` takes the merge sort path.  Its
output is compared against `nativeSort`, the model of a stable built-in
comparison sort.  The comparator is assumed consistent (sign-antisymmetric
with transitive `≤ 0`); a stable sort's output is only defined for
consistent comparators, and every comparator of the sorting layer is
consistent on the homogeneous arrays the layer feeds it
(`lessonsBySectionAndOrder_eq_sectionOrderCmp`,
`coursesByDate_eq_courseDateCmp` plus the congruence lemmas reduce the
guarded comparators to the consistent unguarded ones). -/

/-- C3: for any input of more than 50 elements and any consistent
comparator, the merge sort path of `sortWithCache` produces exactly the
output of the stable built-in comparison sort. -/
theorem claim_C3 {α : Type} (l : List α) (cmp : α → α → Int) (σ : SortCache α)
    (nodeEnv : String) (hlen : 50 < l.length)
    (hsgn : ∀ a b, cmp a b < 0 ↔ 0 < cmp b a)
    (htr : ∀ a b c, cmp a b ≤ 0 → cmp b c ≤ 0 → cmp a c ≤ 0) :
    (sortWithCache σ nodeEnv l cmp none).fst = nativeSort cmp l := by
  show (if l.length ≤ 50 then nativeSort cmp l else mergeSortR cmp l) = nativeSort cmp l
  rw [if_neg (by omega)]
  exact mergeSortR_eq_nativeSort hsgn htr l

/-- C3, witness: 51 natural numbers under the difference comparator. -/
theorem claim_C3_witness :
    50 < (List.range 51).length
    ∧ (sortWithCache [] "production" (List.range 51)
        (fun a b : Nat => (a : Int) - (b : Int)) none).fst
      = nativeSort (fun a b : Nat => (a : Int) - (b : Int)) (List.range 51) :=
  ⟨by decide,
   claim_C3 (List.range 51) (fun a b : Nat => (a : Int) - (b : Int)) [] "production"
     (by decide)
     (fun a b => by
       show (a : Int) - (b : Int) < 0 ↔ 0 < (b : Int) - (a : Int)
       omega)
     (fun a b c h₁ h₂ => by
       have h₁' : (a : Int) - (b : Int) ≤ 0 := h₁
       have h₂' : (b : Int) - (c : Int) ≤ 0 := h₂
       show (a : Int) - (c : Int) ≤ 0
       omega)⟩

/-! ## C4 — tie stability (corrected)

The comparator used by `getRawSortedPosts` and `getCombinedArchiveContent`
is `dateA > dateB ? -1 : 1`: on an exact tie it returns `1` (never `0`), so
the stable-sort guarantee does not apply, and the sort in fact reverses a
tied adjacent pair.  The sorting layer's `postsByDate` / `coursesByDate`
comparators return `0` on ties, and there the stable sort does keep input
order. -/

/-- C4, counterexample: two posts with exactly equal published timestamps
come out of `getRawSortedPosts` in reversed order — the sort is not stable
on ties. -/
theorem claim_C4_counterexample :
    (PostEntry.mk "p1" { title := "P1", published := 5 }).data.published
      = (PostEntry.mk "p2" { title := "P2", published := 5 }).data.published
    ∧ getRawSortedPosts false
        [PostEntry.mk "p1" { title := "P1", published := 5 },
         PostEntry.mk "p2" { title := "P2", published := 5 }]
      = [PostEntry.mk "p2" { title := "P2", published := 5 },
         PostEntry.mk "p1" { title := "P1", published := 5 }] := by
  constructor
  · rfl
  · decide

/-- C4 (amended): records with exactly equal published timestamps keep
their relative input order in results sorted with the layer's
tie-returning-zero comparators — the courses listing's sort
(`sortingUtils.sortCourses`) and the stable sort under
`sortingFunctions.postsByDate` — stated as: the subsequence of records
carrying any fixed timestamp is unchanged by the sort.  The
`getRawSortedPosts` / `getCombinedArchiveContent` comparator instead
returns `1` on exact ties, and a tied adjacent input pair comes out
reversed. -/
theorem claim_C4_amended (nodeEnv : String) (courses : List CourseEntry)
    (hcrs : ∀ e ∈ courses, e.data.type = "course") (x : CourseEntry)
    (pl : List PostEntry) (z : PostEntry) (p q : PostEntry)
    (hpq : p.data.published = q.data.published) :
    ((sortCourses [] nodeEnv courses).fst).filter
        (fun y => y.data.published == x.data.published)
      = courses.filter (fun y => y.data.published == x.data.published)
    ∧ (nativeSort postsByDate pl).filter (fun y => y.data.published == z.data.published)
      = pl.filter (fun y => y.data.published == z.data.published)
    ∧ getRawSortedPosts false [p, q] = [q, p] := by
  have hsgnC : ∀ a b : CourseEntry, courseDateCmp a b < 0 ↔ 0 < courseDateCmp b a := by
    intro a b
    simp only [courseDateCmp]
    omega
  have htrC : ∀ a b c : CourseEntry,
      courseDateCmp a b ≤ 0 → courseDateCmp b c ≤ 0 → courseDateCmp a c ≤ 0 := by
    intro a b c h₁ h₂
    simp only [courseDateCmp] at *
    omega
  refine ⟨?_, ?_, ?_⟩
  · have hcong : ∀ u ∈ courses, ∀ v ∈ courses, coursesByDate u v = courseDateCmp u v :=
      fun u hu v hv => coursesByDate_eq_courseDateCmp (hcrs u hu) (hcrs v hv)
    have hfst : (sortCourses [] nodeEnv courses).fst
        = if courses.length ≤ 50 then nativeSort courseDateCmp courses
          else mergeSortR courseDateCmp courses := by
      show (sortWithCache [] nodeEnv courses coursesByDate _).fst = _
      rw [sortWithCache_empty_fst]
      by_cases hl : courses.length ≤ 50
      · rw [if_pos hl, if_pos hl, nativeSort_congr hcong]
      · rw [if_neg hl, if_neg hl, mergeSortR_congr courses hcong]
    have hpred : ∀ (m : List CourseEntry),
        m.filter (fun y => y.data.published == x.data.published)
          = m.filter (fun y => courseDateCmp x y == 0) := by
      intro m
      apply List.filter_congr
      intro y _
      simp only [courseDateCmp, beq_iff_eq]
      by_cases h : y.data.published = x.data.published
      · simp [h]
      · simp [h]
        omega
    rw [hfst]
    split
    · rw [hpred, hpred, nativeSort_filter hsgnC htrC]
    · rw [hpred, hpred, mergeSortR_filter hsgnC htrC]
  · have hsgnP : ∀ a b : PostEntry, postsByDate a b < 0 ↔ 0 < postsByDate b a := by
      intro a b
      simp only [postsByDate]
      omega
    have htrP : ∀ a b c : PostEntry,
        postsByDate a b ≤ 0 → postsByDate b c ≤ 0 → postsByDate a c ≤ 0 := by
      intro a b c h₁ h₂
      simp only [postsByDate] at *
      omega
    have hpred : ∀ (m : List PostEntry),
        m.filter (fun y => y.data.published == z.data.published)
          = m.filter (fun y => postsByDate z y == 0) := by
      intro m
      apply List.filter_congr
      intro y _
      simp only [postsByDate, beq_iff_eq]
      by_cases h : y.data.published = z.data.published
      · simp [h]
      · simp [h]
        omega
    rw [hpred, hpred, nativeSort_filter hsgnP htrP]
  · simp only [getRawSortedPosts, postsFilter, List.filter, nativeSort, insertS,
      rawPostsCompare, rawDateCompare, hpq]
    norm_num

/-- C4, witness: the amended claim at two concrete tied posts, a concrete
course list with a tie, and a concrete post list with a tie. -/
theorem claim_C4_witness :
    (∀ e ∈ [CourseEntry.mk "a/x" "a" { type := "course", title := "A", published := 4 },
            CourseEntry.mk "b/x" "b" { type := "course", title := "B", published := 4 }],
        e.data.type = "course")
    ∧ (PostEntry.mk "p" { title := "P", published := 4 }).data.published
        = (PostEntry.mk "q" { title := "Q", published := 4 }).data.published
    ∧ ((sortCourses [] "production"
        [CourseEntry.mk "a/x" "a" { type := "course", title := "A", published := 4 },
         CourseEntry.mk "b/x" "b" { type := "course", title := "B", published := 4 }]).fst).filter
        (fun y => y.data.published
          == (CourseEntry.mk "a/x" "a" { type := "course", title := "A", published := 4 }).data.published)
      = [CourseEntry.mk "a/x" "a" { type := "course", title := "A", published := 4 },
         CourseEntry.mk "b/x" "b" { type := "course", title := "B", published := 4 }].filter
        (fun y => y.data.published
          == (CourseEntry.mk "a/x" "a" { type := "course", title := "A", published := 4 }).data.published)
    ∧ getRawSortedPosts false
        [PostEntry.mk "p" { title := "P", published := 4 },
         PostEntry.mk "q" { title := "Q", published := 4 }]
      = [PostEntry.mk "q" { title := "Q", published := 4 },
         PostEntry.mk "p" { title := "P", published := 4 }] :=
  ⟨by decide, rfl,
   (claim_C4_amended "production"
      [CourseEntry.mk "a/x" "a" { type := "course", title := "A", published := 4 },
       CourseEntry.mk "b/x" "b" { type := "course", title := "B", published := 4 }]
      (by decide)
      (CourseEntry.mk "a/x" "a" { type := "course", title := "A", published := 4 })
      [] (PostEntry.mk "p" { title := "P", published := 4 })
      (PostEntry.mk "p" { title := "P", published := 4 })
      (PostEntry.mk "q" { title := "Q", published := 4 }) rfl).1,
   (claim_C4_amended "production"
      [CourseEntry.mk "a/x" "a" { type := "course", title := "A", published := 4 },
       CourseEntry.mk "b/x" "b" { type := "course", title := "B", published := 4 }]
      (by decide)
      (CourseEntry.mk "a/x" "a" { type := "course", title := "A", published := 4 })
      [] (PostEntry.mk "p" { title := "P", published := 4 })
      (PostEntry.mk "p" { title := "P", published := 4 })
      (PostEntry.mk "q" { title := "Q", published := 4 }) rfl).2.2⟩

/-! ## C8 — pinned-course resilience (confirmed) -/

/-- C8: if the configured pinned course slug does not resolve — the courses
lookup throws, the course is not found among the (draft-filtered) sorted
courses, or the lesson-count lookup throws — then
`getSortedPostsWithPinnedCourse` returns exactly all posts in date order
with no pinned entry prepended, and (the `try`/`catch` having absorbed the
failure) no exception escapes; the result is still newest-first. -/
theorem claim_C8 (cfg : PinnedCourseConfig) (prod : Bool) (postsCol : List PostEntry)
    (coursesRes lessonsRes : Except Unit (List CourseEntry))
    (hfail : coursesRes = .error ()
      ∨ (∀ cl, coursesRes = .ok cl →
          (getSortedCoursesSimple prod cl).find?
            (fun c => c.slug == cfg.courseSlug.getD "") = none)
      ∨ lessonsRes = .error ()) :
    getSortedPostsWithPinnedCourse cfg prod postsCol coursesRes lessonsRes
      = (getRawSortedPosts prod postsCol).map wrapPost
    ∧ (getSortedPostsWithPinnedCourse cfg prod postsCol coursesRes lessonsRes).Pairwise
        (fun a b => b.data.published ≤ a.data.published) := by
  have hmain : getSortedPostsWithPinnedCourse cfg prod postsCol coursesRes lessonsRes
      = (getRawSortedPosts prod postsCol).map wrapPost := by
    unfold getSortedPostsWithPinnedCourse
    by_cases hen : (cfg.enable && cfg.slugTruthy) = true
    · simp only [hen, if_true]
      have hnil : (match pinnedLookup prod (cfg.courseSlug.getD "") coursesRes lessonsRes with
          | .ok items => items
          | .error _ => []) = ([] : List PostOrCourse) := by
        rcases hfail with h | h | h
        · subst h
          simp [pinnedLookup, Bind.bind, Except.bind]
        · cases coursesRes with
          | error e => cases e; simp [pinnedLookup, Bind.bind, Except.bind]
          | ok cl =>
            have hfind := h cl rfl
            simp [pinnedLookup, Bind.bind, Except.bind, hfind, Pure.pure, Except.pure]
        · subst h
          cases coursesRes with
          | error e => cases e; simp [pinnedLookup, Bind.bind, Except.bind]
          | ok cl =>
            simp only [pinnedLookup, Bind.bind, Except.bind]
            cases hf : (getSortedCoursesSimple prod cl).find?
                (fun c => c.slug == cfg.courseSlug.getD "") with
            | none => simp [Pure.pure, Except.pure]
            | some pc =>
              by_cases hty : pc.data.type = "course"
              · simp [hty]
              · simp [hty, Pure.pure, Except.pure]
      rw [hnil]
      simp
    · simp [hen]
  refine ⟨hmain, ?_⟩
  rw [hmain]
  rw [List.pairwise_map]
  apply nativeSort_pairwise
  · intro x y z hxy hyz
    omega
  · intro x y h
    simp only [rawPostsCompare, rawDateCompare] at h
    split at h
    · simpa [wrapPost] using by omega
    · omega
  · intro x y h
    simp only [rawPostsCompare, rawDateCompare] at h
    split at h
    · omega
    · rename_i hgt
      simpa [wrapPost] using by omega

/-- C8, witness: pinning enabled with a slug that matches no course; one
existing course with a different slug and one post. -/
theorem claim_C8_witness :
    (∀ cl, (Except.ok [CourseEntry.mk "other/x" "other"
          { type := "course", title := "O", published := 2 }] : Except Unit (List CourseEntry))
        = .ok cl →
        (getSortedCoursesSimple true cl).find?
          (fun c => c.slug == (PinnedCourseConfig.mk true (some "nope")).courseSlug.getD "") = none)
    ∧ getSortedPostsWithPinnedCourse (PinnedCourseConfig.mk true (some "nope")) true
        [PostEntry.mk "p" { title := "P", published := 1 }]
        (.ok [CourseEntry.mk "other/x" "other" { type := "course", title := "O", published := 2 }])
        (.ok [])
      = (getRawSortedPosts true [PostEntry.mk "p" { title := "P", published := 1 }]).map wrapPost :=
  ⟨by intro cl h; cases h; decide,
   (claim_C8 (PinnedCourseConfig.mk true (some "nope")) true
      [PostEntry.mk "p" { title := "P", published := 1 }]
      (.ok [CourseEntry.mk "other/x" "other" { type := "course", title := "O", published := 2 }])
      (.ok [])
      (Or.inr (Or.inl (by intro cl h; cases h; decide)))).1⟩

/-! ## C10 — prev/next navigation links (confirmed) -/

theorem applyNavAux_get? (sorted : List PostEntry) (l : List PostEntry) :
    ∀ (k i : Nat), (applyNavAux sorted k l).get? i = (l.get? i).map (navPost sorted (k + i)) := by
  induction l with
  | nil => intro k i; simp [applyNavAux]
  | cons p rest ih =>
    intro k i
    cases i with
    | zero => simp [applyNavAux]
    | succ n =>
      simp only [applyNavAux, List.get?_cons_succ]
      rw [ih (k + 1) n]
      have hk : k + (n + 1) = k + 1 + n := by omega
      rw [hk]

theorem applyNavAux_length (sorted : List PostEntry) (l : List PostEntry) :
    ∀ (k : Nat), (applyNavAux sorted k l).length = l.length := by
  induction l with
  | nil => intro k; rfl
  | cons p rest ih => intro k; simp [applyNavAux, ih]

theorem navPost_slug (sorted : List PostEntry) (i : Nat) (p : PostEntry) :
    (navPost sorted i p).slug = p.slug := by
  unfold navPost
  cases h₁ : (if 1 ≤ i then sorted.get? (i - 1) else none) <;>
    cases h₂ : (if i + 1 < sorted.length then sorted.get? (i + 1) else none) <;>
    simp [h₁, h₂]

theorem navPost_title (sorted : List PostEntry) (i : Nat) (p : PostEntry) :
    (navPost sorted i p).data.title = p.data.title := by
  unfold navPost
  cases h₁ : (if 1 ≤ i then sorted.get? (i - 1) else none) <;>
    cases h₂ : (if i + 1 < sorted.length then sorted.get? (i + 1) else none) <;>
    simp [h₁, h₂]

theorem navPost_next_pos (sorted : List PostEntry) (i : Nat) (p q : PostEntry)
    (hi : 1 ≤ i) (hq : sorted.get? (i - 1) = some q) :
    (navPost sorted i p).data.nextSlug = some q.slug
    ∧ (navPost sorted i p).data.nextTitle = some q.data.title := by
  unfold navPost
  rw [if_pos hi, hq]
  cases h₂ : (if i + 1 < sorted.length then sorted.get? (i + 1) else none) <;> simp [h₂]

theorem navPost_next_zero (sorted : List PostEntry) (p : PostEntry) :
    (navPost sorted 0 p).data.nextSlug = p.data.nextSlug
    ∧ (navPost sorted 0 p).data.nextTitle = p.data.nextTitle := by
  unfold navPost
  rw [if_neg (by omega)]
  cases h₂ : (if 0 + 1 < sorted.length then sorted.get? (0 + 1) else none) <;> simp [h₂]

theorem navPost_prev_pos (sorted : List PostEntry) (i : Nat) (p q : PostEntry)
    (hi : i + 1 < sorted.length) (hq : sorted.get? (i + 1) = some q) :
    (navPost sorted i p).data.prevSlug = some q.slug
    ∧ (navPost sorted i p).data.prevTitle = some q.data.title := by
  unfold navPost
  rw [if_pos hi, hq]
  cases h₁ : (if 1 ≤ i then sorted.get? (i - 1) else none) <;> simp [h₁]

theorem navPost_prev_last (sorted : List PostEntry) (i : Nat) (p : PostEntry)
    (hi : ¬ i + 1 < sorted.length) :
    (navPost sorted i p).data.prevSlug = p.data.prevSlug
    ∧ (navPost sorted i p).data.prevTitle = p.data.prevTitle := by
  unfold navPost
  rw [if_neg hi]
  cases h₁ : (if 1 ≤ i then sorted.get? (i - 1) else none) <;> simp [h₁]

theorem getRawSortedPosts_mem {prod : Bool} {col : List PostEntry} {p : PostEntry}
    (h : p ∈ getRawSortedPosts prod col) : p ∈ col := by
  unfold getRawSortedPosts at h
  exact List.mem_of_mem_filter ((nativeSort_perm _ _).mem_iff.mp h)

/-- C10: in the list returned by `getSortedPosts`, the post at index
`i ≥ 1` carries `nextSlug`/`nextTitle` equal to the slug and title of the
post at index `i-1`; the post at index `i < length-1` carries
`prevSlug`/`prevTitle` equal to the slug and title of the post at index
`i+1`; the first post keeps no `nextSlug`/`nextTitle` and the last post no
`prevSlug`/`prevTitle` (posts arrive from the store with these fields
unset). -/
theorem claim_C10 (prod : Bool) (col : List PostEntry)
    (hfresh : ∀ p ∈ col, p.data.nextSlug = none ∧ p.data.nextTitle = none
      ∧ p.data.prevSlug = none ∧ p.data.prevTitle = none)
    (i : Nat) (p : PostEntry)
    (hp : (getSortedPosts prod col).get? i = some p) :
    (1 ≤ i → ∃ q, (getSortedPosts prod col).get? (i - 1) = some q
        ∧ p.data.nextSlug = some q.slug ∧ p.data.nextTitle = some q.data.title)
    ∧ (i + 1 < (getSortedPosts prod col).length →
        ∃ q, (getSortedPosts prod col).get? (i + 1) = some q
          ∧ p.data.prevSlug = some q.slug ∧ p.data.prevTitle = some q.data.title)
    ∧ (i = 0 → p.data.nextSlug = none ∧ p.data.nextTitle = none)
    ∧ (i = (getSortedPosts prod col).length - 1 →
        p.data.prevSlug = none ∧ p.data.prevTitle = none) := by
  have hget : ∀ j, (getSortedPosts prod col).get? j
      = ((getRawSortedPosts prod col).get? j).map (navPost (getRawSortedPosts prod col) j) := by
    intro j
    unfold getSortedPosts
    simpa using applyNavAux_get? (getRawSortedPosts prod col) (getRawSortedPosts prod col) 0 j
  have hlen : (getSortedPosts prod col).length = (getRawSortedPosts prod col).length := by
    unfold getSortedPosts
    simpa using applyNavAux_length (getRawSortedPosts prod col) (getRawSortedPosts prod col) 0
  rw [hget i] at hp
  cases hp0 : (getRawSortedPosts prod col).get? i with
  | none => rw [hp0] at hp; simp at hp
  | some p₀ =>
    rw [hp0] at hp
    have hp' : p = navPost (getRawSortedPosts prod col) i p₀ := (Option.some_inj.mp hp).symm
    have hilt : i < (getRawSortedPosts prod col).length := by
      rcases List.get?_eq_some.mp hp0 with ⟨hlt, _⟩
      exact hlt
    refine ⟨?_, ?_, ?_, ?_⟩
    · intro h1
      have hprev : i - 1 < (getRawSortedPosts prod col).length := by omega
      obtain ⟨q₀, hq₀⟩ : ∃ q₀, (getRawSortedPosts prod col).get? (i - 1) = some q₀ :=
        ⟨_, List.get?_eq_get hprev⟩
      refine ⟨navPost (getRawSortedPosts prod col) (i - 1) q₀, ?_, ?_, ?_⟩
      · rw [hget (i - 1), hq₀]
        rfl
      · rw [hp', (navPost_next_pos _ i p₀ q₀ h1 hq₀).1, navPost_slug]
      · rw [hp', (navPost_next_pos _ i p₀ q₀ h1 hq₀).2, navPost_title]
    · intro h1
      rw [hlen] at h1
      obtain ⟨q₀, hq₀⟩ : ∃ q₀, (getRawSortedPosts prod col).get? (i + 1) = some q₀ :=
        ⟨_, List.get?_eq_get h1⟩
      refine ⟨navPost (getRawSortedPosts prod col) (i + 1) q₀, ?_, ?_, ?_⟩
      · rw [hget (i + 1), hq₀]
        rfl
      · rw [hp', (navPost_prev_pos _ i p₀ q₀ h1 hq₀).1, navPost_slug]
      · rw [hp', (navPost_prev_pos _ i p₀ q₀ h1 hq₀).2, navPost_title]
    · intro h0
      subst h0
      have hmem := hfresh p₀ (getRawSortedPosts_mem (List.get?_mem hp0))
      rw [hp']
      rw [(navPost_next_zero _ p₀).1, (navPost_next_zero _ p₀).2]
      exact ⟨hmem.1, hmem.2.1⟩
    · intro hlast
      rw [hlen] at hlast
      have hnot : ¬ i + 1 < (getRawSortedPosts prod col).length := by omega
      have hmem := hfresh p₀ (getRawSortedPosts_mem (List.get?_mem hp0))
      rw [hp']
      rw [(navPost_prev_last _ i p₀ hnot).1, (navPost_prev_last _ i p₀ hnot).2]
      exact ⟨hmem.2.2.1, hmem.2.2.2⟩

/-- C10, witness: two posts; the older one ends up at index 1 with
`nextSlug`/`nextTitle` pointing at the newer one and no `prevSlug`. -/
theorem claim_C10_witness :
    ((getSortedPosts false
        [PostEntry.mk "p" { title := "P", published := 1 },
         PostEntry.mk "q" { title := "Q", published := 9 }]).get? 1
      = some (PostEntry.mk "p"
          { title := "P", published := 1, nextSlug := some "q", nextTitle := some "Q" }))
    ∧ (∀ p ∈ [PostEntry.mk "p" { title := "P", published := 1 },
              PostEntry.mk "q" { title := "Q", published := 9 }],
        p.data.nextSlug = none ∧ p.data.nextTitle = none
          ∧ p.data.prevSlug = none ∧ p.data.prevTitle = none)
    ∧ ((1 ≤ 1 → ∃ q, (getSortedPosts false
            [PostEntry.mk "p" { title := "P", published := 1 },
             PostEntry.mk "q" { title := "Q", published := 9 }]).get? (1 - 1) = some q
          ∧ (PostEntry.mk "p"
              { title := "P", published := 1, nextSlug := some "q",
                nextTitle := some "Q" }).data.nextSlug = some q.slug
          ∧ (PostEntry.mk "p"
              { title := "P", published := 1, nextSlug := some "q",
                nextTitle := some "Q" }).data.nextTitle = some q.data.title)
      ∧ (1 + 1 < (getSortedPosts false
            [PostEntry.mk "p" { title := "P", published := 1 },
             PostEntry.mk "q" { title := "Q", published := 9 }]).length →
          ∃ q, (getSortedPosts false
            [PostEntry.mk "p" { title := "P", published := 1 },
             PostEntry.mk "q" { title := "Q", published := 9 }]).get? (1 + 1) = some q
          ∧ (PostEntry.mk "p"
              { title := "P", published := 1, nextSlug := some "q",
                nextTitle := some "Q" }).data.prevSlug = some q.slug
          ∧ (PostEntry.mk "p"
              { title := "P", published := 1, nextSlug := some "q",
                nextTitle := some "Q" }).data.prevTitle = some q.data.title)
      ∧ ((1 : Nat) = 0 → (PostEntry.mk "p"
            { title := "P", published := 1, nextSlug := some "q",
              nextTitle := some "Q" }).data.nextSlug = none
          ∧ (PostEntry.mk "p"
              { title := "P", published := 1, nextSlug := some "q",
                nextTitle := some "Q" }).data.nextTitle = none)
      ∧ ((1 : Nat) = (getSortedPosts false
            [PostEntry.mk "p" { title := "P", published := 1 },
             PostEntry.mk "q" { title := "Q", published := 9 }]).length - 1 →
          (PostEntry.mk "p"
            { title := "P", published := 1, nextSlug := some "q",
              nextTitle := some "Q" }).data.prevSlug = none
          ∧ (PostEntry.mk "p"
              { title := "P", published := 1, nextSlug := some "q",
                nextTitle := some "Q" }).data.prevTitle = none)) :=
  ⟨by decide, by decide,
   claim_C10 false
     [PostEntry.mk "p" { title := "P", published := 1 },
      PostEntry.mk "q" { title := "Q", published := 9 }]
     (by decide) 1
     (PostEntry.mk "p"
       { title := "P", published := 1, nextSlug := some "q", nextTitle := some "Q" })
     (by decide)⟩
